import Mathlib

/-!
# Verification of NeuroConn (`src/NeuroConn/preprocessing/preprocessing.py`)

A shallow embedding of the numerical and structural behaviour of the
NeuroConn preprocessing module, together with theorems settling the
specification claims.

Modelling conventions:

* IEEE float values are modelled by `FVal α`: a finite value carrying an
  element of `α` (`ℚ` where we need to evaluate, `ℝ` where we need
  analysis), or `+Inf`, `-Inf`, `NaN`.
* `np.arctanh` is modelled by `arctanhF g`: on finite `x` it returns
  `+Inf` at `1`, `-Inf` at `-1`, `NaN` outside `[-1, 1]`, and a finite
  value `g x` on `(-1, 1)`; `g` is an abstract parameter standing for the
  (irrational-valued) restriction of the mathematical `arctanh` to the
  open interval, which the claims never need to evaluate.  On `±Inf` and
  `NaN` the result is `NaN`, as in numpy.
* Connectivity matrices over `ℝ` model the same pipeline at the level of
  exact real arithmetic (`np.corrcoef` including its clipping to
  `[-1, 1]`).
* The filesystem seen by `get_ts_paths` / `get_sessions` /
  `get_confounds` is modelled by explicit directory-listing data, and
  `os.listdir` errors by an explicit `PyError` type.
-/

/-- An IEEE-style extended value: finite payload, infinities, or NaN. -/
inductive FVal (α : Type) where
  | fin (x : α)
  | pinf
  | ninf
  | nan
deriving DecidableEq, Repr

namespace FVal

/-- Model of `np.isnan` on one value. -/
def isNan {α : Type} : FVal α → Bool
  | .nan => true
  | _ => false

/-- Model of `np.isinf` on one value (true for either sign of infinity). -/
def isInf {α : Type} : FVal α → Bool
  | .pinf => true
  | .ninf => true
  | _ => false

/-- A value that is neither NaN nor infinite. -/
def isFinite {α : Type} : FVal α → Bool
  | .fin _ => true
  | _ => false

end FVal

/-- Model of `np.arctanh` elementwise on one float value: `±1 ↦ ±Inf`,
`|x| > 1 ↦ NaN`, and on `(-1, 1)` the finite value `g x`, where `g`
abstracts the mathematical `arctanh` restricted to the open interval.
`arctanh` of `±Inf` or `NaN` is `NaN`, as in numpy. -/
def arctanhF {α : Type} [LinearOrderedField α] (g : α → α) : FVal α → FVal α
  | .fin x =>
      if x = 1 then .pinf
      else if x = -1 then .ninf
      else if 1 < |x| then .nan
      else .fin (g x)
  | .pinf => .nan
  | .ninf => .nan
  | .nan => .nan

/-- A connectivity matrix in the float model: a list of rows of float
values. -/
abbrev FMat (α : Type) := List (List (FVal α))

/-- Apply a scalar function to every entry of a float matrix. -/
def mapFMat {α : Type} (f : FVal α → FVal α) (m : FMat α) : FMat α :=
  m.map (fun row => row.map f)

/-- Model of `np.isnan(m).any()`. -/
def anyNan {α : Type} (m : FMat α) : Bool :=
  m.any (fun row => row.any FVal.isNan)

/-- Model of `np.isinf(m).any()`. -/
def anyInf {α : Type} (m : FMat α) : Bool :=
  m.any (fun row => row.any FVal.isInf)

/-- The fixup `conn_matrix[nan_indices] = .0000000001`: replace every NaN entry by
`1e-10`. -/
def nanRep {α : Type} [LinearOrderedField α] (v : FVal α) : FVal α :=
  if v.isNan then .fin (1 / 10 ^ 10) else v

/-- The fixup `conn_matrix[inf_indices] = 1`: replace every infinite entry by `1`. -/
def infRep {α : Type} [LinearOrderedField α] (v : FVal α) : FVal α :=
  if v.isInf then .fin 1 else v

/-- Embedding of `z_transform_conn_matrix` (preprocessing.py, lines 15–36), statement
by statement: apply `np.arctanh` elementwise; if any entry is NaN,
overwrite the NaN entries with `1e-10`; if any entry is then infinite,
overwrite the infinite entries with `1`. -/
def z_transform_conn_matrix {α : Type} [LinearOrderedField α]
    (g : α → α) (m : FMat α) : FMat α :=
  let m1 := mapFMat (arctanhF g) m
  let m2 := if anyNan m1 then mapFMat nanRep m1 else m1
  let m3 := if anyInf m2 then mapFMat infRep m2 else m2
  m3

/-- The spec's elementwise description of the sanitizer: `arctanh`, then
NaN replaced by `1e-10` and Inf (either sign) replaced by `1`, entry by
entry. -/
def z_transform_spec {α : Type} [LinearOrderedField α]
    (g : α → α) (m : FMat α) : FMat α :=
  mapFMat (fun v => infRep (nanRep (arctanhF g v))) m

/-! ## Exact-real model of `np.corrcoef` and the connectivity pipeline

A cleaned session time series is a `List (Fin p → ℝ)`: one entry per
time volume, each entry giving the value of every parcel at that volume
(the orientation nilearn produces: samples × features).
`np.corrcoef(ts.T)` correlates the parcels: variable `i` is the sequence
`t ↦ ts t i`.  numpy's `corrcoef` divides the covariance by the product
of standard deviations and clips the result into `[-1, 1]`. -/

/-- Arithmetic mean of a finite sequence (`np.mean` along the time axis). -/
noncomputable def rmean (n : ℕ) (v : Fin n → ℝ) : ℝ := (∑ t, v t) / n

/-- Sample covariance (`np.cov` with the default `ddof = 1`): centred
cross products divided by `n - 1`. -/
noncomputable def covM {p n : ℕ} (x : Fin p → Fin n → ℝ) (i j : Fin p) : ℝ :=
  (∑ t, (x i t - rmean n (x i)) * (x j t - rmean n (x j))) / ((n : ℝ) - 1)

/-- numpy clips correlation coefficients into `[-1, 1]`. -/
noncomputable def clip (x : ℝ) : ℝ := max (-1) (min 1 x)

/-- Model of `np.corrcoef` on `p` variables observed at `n` time points:
covariance divided by the product of standard deviations, clipped. -/
noncomputable def corrcoef {p n : ℕ} (x : Fin p → Fin n → ℝ) :
    Matrix (Fin p) (Fin p) ℝ :=
  fun i j => clip (covM x i j / (Real.sqrt (covM x i i) * Real.sqrt (covM x j j)))

/-- Model of `np.corrcoef(ts.T)` for a session time series stored as a list of
volumes: variable `i` is parcel `i` observed over the volumes. -/
noncomputable def corrcoefL (p : ℕ) (rows : List (Fin p → ℝ)) :
    Matrix (Fin p) (Fin p) ℝ :=
  corrcoef (fun i t => rows.get t i)

/-- The Fisher z-transform sanitizer at the level of exact reals:
`arctanh(±1) = ±Inf` is replaced by `1`, `arctanh` outside `[-1, 1]` is
NaN and replaced by `1e-10`, and on `(-1, 1)` the finite value is `g x`
(`g` abstracting the mathematical `arctanh`).  This is
`z_transform_conn_matrix` specialised to a matrix with no NaN/Inf
entries on input. -/
noncomputable def z_transform_real (g : ℝ → ℝ) (x : ℝ) : ℝ :=
  if x = 1 ∨ x = -1 then 1
  else if 1 < |x| then 1 / 10 ^ 10
  else g x

/-- Elementwise z-transform of a real connectivity matrix. -/
noncomputable def z_transform_matrix {p : ℕ} (g : ℝ → ℝ)
    (c : Matrix (Fin p) (Fin p) ℝ) : Matrix (Fin p) (Fin p) ℝ :=
  fun i j => z_transform_real g (c i j)

/-- Embedding of `get_conn_matrix` with `concat_ts=True` (preprocessing.py,
lines 419–423), statement by statement: `np.row_stack` the per-session
time series, take `np.corrcoef` of the transpose, and apply the
z-transform sanitizer when `z_transformed` is set. -/
noncomputable def get_conn_matrix_concat {p : ℕ} (g : ℝ → ℝ)
    (z_transformed : Bool) (sessions : List (List (Fin p → ℝ))) :
    Matrix (Fin p) (Fin p) ℝ :=
  let stacked := sessions.flatten
  let conn_matrix := corrcoefL p stacked
  if z_transformed then z_transform_matrix g conn_matrix else conn_matrix

/-- The spec's description of the concatenated branch: the Pearson
correlation matrix over the single row-stacked array, with the
z-transform applied exactly when `z_transformed=True`. -/
noncomputable def conn_matrix_concat_spec {p : ℕ} (g : ℝ → ℝ)
    (z_transformed : Bool) (sessions : List (List (Fin p → ℝ))) :
    Matrix (Fin p) (Fin p) ℝ :=
  if z_transformed then z_transform_matrix g (corrcoefL p sessions.flatten)
  else corrcoefL p sessions.flatten

/-- Embedding of `get_conn_matrix` with `concat_ts=False` (preprocessing.py,
lines 424–429): one correlation matrix per session slice of the cleaned
array, each z-transformed when `z_transformed` is set. -/
noncomputable def get_conn_matrix_sessions {p : ℕ} (g : ℝ → ℝ)
    (z_transformed : Bool) (sessions : List (List (Fin p → ℝ))) :
    List (Matrix (Fin p) (Fin p) ℝ) :=
  sessions.map (fun subj_ts =>
    let c := corrcoefL p subj_ts
    if z_transformed then z_transform_matrix g c else c)

/-! ## Filesystem model for path discovery, confounds, parcellation

A subject's directory tree as seen by `get_sessions`, `get_ts_paths`
and `get_confounds`: a list of `ses-*` session directories (each with a
possibly missing `func` subdirectory holding file names) and the
subject-level `func` directory used when there are no sessions.
The predicates `tsMatch` / `confMatch` model the filename filters
`task in f and f.endswith('...preproc_bold.nii.gz')` and
`task in f and f.endswith('confounds_timeseries.tsv')`. -/

/-- One `ses-<name>` directory of a subject. -/
structure SessionDir where
  name : String
  funcExists : Bool
  funcFiles : List String
deriving DecidableEq, Repr

/-- A subject directory: its session directories, and the files in its
own `func` directory (used only when there are no sessions). -/
structure SubjectDir where
  sessions : List SessionDir
  funcFiles : List String
deriving DecidableEq, Repr

/-- Embedding of `get_sessions` (lines 203–223): the names of the `ses-` directories. -/
def get_sessions (fs : SubjectDir) : List String :=
  fs.sessions.map (fun s => s.name)

/-- Embedding of `get_ts_paths` (lines 175–201): with sessions, collect the matching
bold files of every existing session `func` directory; without
sessions, the matching files of the subject-level `func` directory. -/
def get_ts_paths (tsMatch : String → Bool) (fs : SubjectDir) : List String :=
  if (get_sessions fs).length ≠ 0 then
    fs.sessions.flatMap (fun s =>
      if s.funcExists then
        (s.funcFiles.filter tsMatch).map (fun f => "ses-" ++ s.name ++ "/func/" ++ f)
      else [])
  else
    (fs.funcFiles.filter tsMatch).map (fun f => "func/" ++ f)

/-- The external tabular/IO operations `get_confounds` delegates to,
abstracted over the dataframe type `DF`: `pd.read_csv`, `np.loadtxt`
on a confound-names file, the `SimpleImputer(strategy='mean')` pass,
column selection `df[cols]`, and the bundled default-confounds file. -/
structure ConfEnv (DF : Type) where
  readCsv : String → DF
  loadtxt : String → List String
  imputeAll : DF → DF
  select : DF → List String → DF
  defaultNamesFile : String
  dropGlobalSignal : DF → DF

/-- Embedding of `_impute_nans_confounds` (lines 225–245): impute the whole frame by
column means, then select `pick_confounds`, loading the default list
when the argument is `None` (the argument is always a name list here,
so the selection branch is always taken). -/
def imputeNansConfounds {DF : Type} (env : ConfEnv DF) (df : DF)
    (pick_confounds : Option (List String)) : DF :=
  let pick := match pick_confounds with
    | none => env.loadtxt env.defaultNamesFile
    | some l => l
  env.select (env.imputeAll df) pick

/-- Embedding of `get_confounds` (lines 247–300): load the confound-name list (the
default file when `pick_confounds` is `None`, else the named file),
walk the session `func` directories (or the subject `func` directory
when there are no sessions) for matching confound tables, and either
mean-impute them (`no_nans=True`) or select the picked columns.
In the sessions branch with `no_nans=True` the imputation call passes
no `pick_confounds`, so the default list is used there. -/
def get_confounds {DF : Type} (env : ConfEnv DF) (confMatch : String → Bool)
    (fs : SubjectDir) (no_nans : Bool) (pick_confounds : Option String) :
    List DF :=
  let pick := match pick_confounds with
    | none => env.loadtxt env.defaultNamesFile
    | some path => env.loadtxt path
  if (get_sessions fs).length ≠ 0 then
    let confound_paths := fs.sessions.flatMap (fun s =>
      if s.funcExists then
        (s.funcFiles.filter confMatch).map (fun f => "ses-" ++ s.name ++ "/func/" ++ f)
      else [])
    if no_nans then
      confound_paths.map (fun q => imputeNansConfounds env (env.readCsv q) none)
    else
      confound_paths.map (fun q => env.select (env.readCsv q) pick)
  else
    let confound_files := (fs.funcFiles.filter confMatch).map (fun f => "func/" ++ f)
    if no_nans then
      confound_files.map (fun q => imputeNansConfounds env (env.readCsv q) (some pick))
    else
      confound_files.map (fun q => env.readCsv q)

/-- Embedding of `parcellate` (lines 302–336): zip the time-series paths with the
confound tables (`no_nans=True`, default confounds) and run the masker
on each pair; without global-signal regression the `global_signal`
column is dropped from the confounds first.  The masker output is one
row per time volume, one column per parcel (`p` parcels). -/
def parcellate {DF : Type} {p : ℕ} (env : ConfEnv DF)
    (tsMatch confMatch : String → Bool)
    (masker : String → DF → List (Fin p → ℝ)) (gsr : Bool)
    (fs : SubjectDir) : List (List (Fin p → ℝ)) :=
  ((get_ts_paths tsMatch fs).zip
      (get_confounds env confMatch fs true none)).map (fun pc =>
    if gsr = false then masker pc.1 (env.dropGlobalSignal pc.2)
    else masker pc.1 pc.2)

/-- The warm-up discard inside `clean_signal` (line 368): band-pass
filter a parcellated session series, then drop the first 10 volumes. -/
def cleanSession {β : Type} (cleanF : List β → List β) (parc_ts : List β) :
    List β :=
  (cleanF parc_ts).drop 10

/-- Embedding of `clean_signal` (lines 338–381): parcellate, then for each session
series apply `nilearn.signal.clean` (modelled by the shape-preserving
parameter `cleanF`) and discard the first 10 volumes. -/
def clean_signal {DF : Type} {p : ℕ} (env : ConfEnv DF)
    (tsMatch confMatch : String → Bool)
    (masker : String → DF → List (Fin p → ℝ)) (gsr : Bool)
    (cleanF : List (Fin p → ℝ) → List (Fin p → ℝ))
    (fs : SubjectDir) : List (List (Fin p → ℝ)) :=
  (parcellate env tsMatch confMatch masker gsr fs).map
    (fun parc_ts => cleanSession cleanF parc_ts)

/-! ## Error model for `_find_sub_dirs`

`os.listdir` either returns a listing or raises; a raised Python error
is either a `FileNotFoundError` (message, `filename`, `strerror`) or
some other exception.  `_find_sub_dirs` wraps exactly the
`FileNotFoundError` whose `filename` is the listed path and whose
`strerror` is `'No such file or directory'` into the specific message;
anything else is re-raised (or never caught) unchanged. -/

/-- A raised Python exception as `_find_sub_dirs` can observe it. -/
inductive PyError where
  | fileNotFoundError (msg : String) (filename : String) (strerror : String)
  | otherError (msg : String)
deriving DecidableEq, Repr

/-- The operating system as seen by `_find_sub_dirs`. -/
structure OSModel where
  listdir : String → Except PyError (List String)
  isdir : String → Bool

/-- The specific message of the re-wrapped error. -/
def derivativesMissingMsg : String :=
  "The data have not been preprocessed with fmriprep: no 'derivatives' directory found."

/-- The `try/except` around `os.listdir(self.data_path)`
(lines 160–166): a `FileNotFoundError` whose `filename` equals the
listed path with `strerror = 'No such file or directory'` is replaced
by the specific message; any other error propagates unmodified. -/
def listdirChecked (os : OSModel) (path : String) :
    Except PyError (List String) :=
  match os.listdir path with
  | .ok l => .ok l
  | .error (.fileNotFoundError msg fn strerr) =>
      if fn = path ∧ strerr = "No such file or directory" then
        .error (.fileNotFoundError derivativesMissingMsg "" "")
      else .error (.fileNotFoundError msg fn strerr)
  | .error e => .error e

/-- The inner `for subdir in subdirs` loop of `_find_sub_dirs` in the
pass where no entry starts with `sub-`: descend into each entry that is
a directory (each `isdir` test uses the data path as reassigned so
far). -/
def descendLoop (os : OSModel) (path : String) : List String → String
  | [] => path
  | d :: ds =>
      let p1 := if os.isdir (path ++ "/" ++ d) then path ++ "/" ++ d else path
      descendLoop os p1 ds

/-- Embedding of `_find_sub_dirs` (lines 149–173) with explicit fuel for the
`while` loop (which the source does not bound): list the current data
path, stop when some entry starts with `sub-`, otherwise descend and
repeat. -/
def findSubDirs (os : OSModel) : ℕ → String → Except PyError String
  | 0, _ => .error (.otherError "loop fuel exhausted")
  | fuel + 1, path =>
      match listdirChecked os path with
      | .error e => .error e
      | .ok subdirs =>
          if subdirs.any (fun s => s.startsWith "sub-") then .ok path
          else findSubDirs os fuel (descendLoop os path subdirs)

/-- Embedding of `FmriPreppedDataSet.__init__` (lines 134–137), the directory
discovery part: set `data_path` to `BIDS_path + '/derivatives'` and run
`_find_sub_dirs`. -/
def fmriPreppedInitDataPath (os : OSModel) (fuel : ℕ) (bids : String) :
    Except PyError String :=
  findSubDirs os fuel (bids ++ "/derivatives")

/-! ## Heap model for the in-place behaviour of `z_transform_conn_matrix`

`np.arctanh(conn_matrix)` allocates a fresh array, to which the local
name is rebound; the NaN/Inf fixups then mutate that fresh array in
place.  A heap is a list of float matrices; an array reference is an
index into it; allocation appends. -/

abbrev Heap (α : Type) := List (FMat α)

/-- Embedding of `z_transform_conn_matrix` acting on a heap: read the argument array
at reference `r`, allocate the fresh `np.arctanh` result, mutate it in
place for the NaN and Inf passes, and return the reference to the
fresh array together with the final heap. -/
def z_transform_heap {α : Type} [LinearOrderedField α] (g : α → α)
    (heap : Heap α) (r : ℕ) : ℕ × Heap α :=
  let m := heap.getD r []
  let r1 := heap.length
  let h1 := heap ++ [mapFMat (arctanhF g) m]
  let h2 := if anyNan (h1.getD r1 []) then
      h1.set r1 (mapFMat nanRep (h1.getD r1 [])) else h1
  let h3 := if anyInf (h2.getD r1 []) then
      h2.set r1 (mapFMat infRep (h2.getD r1 [])) else h2
  (r1, h3)

/-! ## Concrete instances used by the witnesses and counterexamples -/

/-- A two-volume, one-parcel session time series with distinct values. -/
noncomputable def c3rows : List (Fin 1 → ℝ) :=
  [fun _ => 0, fun _ => 1]

/-- A trivial confounds environment over a unit dataframe type. -/
def unitConfEnv : ConfEnv Unit where
  readCsv := fun _ => ()
  loadtxt := fun _ => []
  imputeAll := fun _ => ()
  select := fun _ _ => ()
  defaultNamesFile := "default_confounds.txt"
  dropGlobalSignal := fun _ => ()

/-- A subject with one session whose `func` directory holds two
matching bold files and two matching confound tables. -/
def twoRunSubject : SubjectDir where
  sessions := [{ name := "01", funcExists := true,
                 funcFiles := ["ts1", "ts2", "cf1", "cf2"] }]
  funcFiles := []

/-- Filename filter used by the concrete subjects: bold files. -/
def tsMatchW : String → Bool := fun f => f == "ts1" || f == "ts2"

/-- Filename filter used by the concrete subjects: confound tables. -/
def confMatchW : String → Bool := fun f => f == "cf1" || f == "cf2"

/-- A masker stub producing twelve volumes of three parcels. -/
noncomputable def masker12x3 : String → Unit → List (Fin 3 → ℝ) :=
  fun _ _ => List.replicate 12 (fun _ => 0)

/-- A masker stub producing no volumes over one parcel. -/
noncomputable def maskerEmpty : String → Unit → List (Fin 1 → ℝ) :=
  fun _ _ => []

/-- A subject with one session holding exactly one matching bold file
and one matching confound table. -/
def oneRunSubject : SubjectDir where
  sessions := [{ name := "01", funcExists := true,
                 funcFiles := ["ts1", "cf1"] }]
  funcFiles := []

/-- A confounds environment over a natural-number dataframe type, with
a column selection that ignores the column list. -/
def natConfEnv : ConfEnv ℕ where
  readCsv := fun _ => 0
  loadtxt := fun _ => []
  imputeAll := fun d => d
  select := fun d _ => d
  defaultNamesFile := "default_confounds.txt"
  dropGlobalSignal := fun d => d

/-- The `FileNotFoundError` raised by a missing `derivatives`
directory under the root `/data`. -/
def c8err : PyError :=
  .fileNotFoundError "listdir failed" ("/data" ++ "/derivatives")
    "No such file or directory"

/-- An operating system whose every listing raises `c8err`. -/
def c8os : OSModel where
  listdir := fun _ => .error c8err
  isdir := fun _ => false

/-- A concrete all-finite correlation matrix over `ℚ`, including exact
`±1` and values outside `[-1, 1]`. -/
def c1mat : FMat ℚ :=
  [[.fin 1, .fin 0, .fin (-1)], [.fin (1 / 2), .fin 2, .fin (-3)]]

/-- A concrete one-array heap. -/
def c9heap : Heap ℚ := [[[.fin 1, .fin 0]]]

/-! ## Supporting lemmas -/

lemma nanRep_of_not_nan {α : Type} [LinearOrderedField α]
    {v : FVal α} (h : v.isNan = false) : nanRep v = v := by
  simp [nanRep, h]

lemma infRep_of_not_inf {α : Type} [LinearOrderedField α]
    {v : FVal α} (h : v.isInf = false) : infRep v = v := by
  simp [infRep, h]

lemma list_map_fix {α : Type} (f : α → α) :
    ∀ l : List α, (∀ x ∈ l, f x = x) → l.map f = l := by
  intro l
  induction l with
  | nil => intro _; rfl
  | cons a t ih =>
      intro h
      simp only [List.map_cons]
      rw [h a (List.mem_cons_self a t), ih (fun x hx => h x (List.mem_cons_of_mem a hx))]

lemma mapFMat_id_of_no_nan {α : Type} [LinearOrderedField α]
    {m : FMat α} (h : anyNan m = false) : mapFMat nanRep m = m := by
  unfold anyNan at h
  rw [List.any_eq_false] at h
  unfold mapFMat
  apply list_map_fix
  intro row hrow
  apply list_map_fix
  intro v hv
  have hr := h row hrow
  have hv' : v.isNan = false := by
    cases hna : v.isNan
    · rfl
    · exact absurd (List.any_eq_true.mpr ⟨v, hv, hna⟩) hr
  exact nanRep_of_not_nan hv'

lemma mapFMat_id_of_no_inf {α : Type} [LinearOrderedField α]
    {m : FMat α} (h : anyInf m = false) : mapFMat infRep m = m := by
  unfold anyInf at h
  rw [List.any_eq_false] at h
  unfold mapFMat
  apply list_map_fix
  intro row hrow
  apply list_map_fix
  intro v hv
  have hr := h row hrow
  have hv' : v.isInf = false := by
    cases hna : v.isInf
    · rfl
    · exact absurd (List.any_eq_true.mpr ⟨v, hv, hna⟩) hr
  exact infRep_of_not_inf hv'

lemma mapFMat_comp {α : Type} (f g : FVal α → FVal α) (m : FMat α) :
    mapFMat f (mapFMat g m) = mapFMat (fun v => f (g v)) m := by
  unfold mapFMat
  simp [List.map_map, Function.comp]

/-- After the NaN pass no entry is NaN. -/
lemma no_nan_after_nanRep {α : Type} [LinearOrderedField α] (m : FMat α) :
    anyNan (mapFMat nanRep m) = false := by
  unfold anyNan mapFMat
  rw [List.any_eq_false]
  intro row hrow
  rw [List.mem_map] at hrow
  obtain ⟨r, _, rfl⟩ := hrow
  simp only [List.any_map, List.any_eq_true, not_exists]
  intro v
  rintro ⟨_, hv⟩
  revert hv
  cases v <;> simp [nanRep, FVal.isNan, Function.comp]

/-- The inf pass does not touch non-inf entries and removes inf ones. -/
lemma infRep_comm_nanRep {α : Type} [LinearOrderedField α] (v : FVal α) :
    infRep (nanRep v) = nanRep (infRep v) := by
  cases v <;> simp [infRep, nanRep, FVal.isNan, FVal.isInf]

lemma step_nan {α : Type} [LinearOrderedField α] (m1 : FMat α) :
    (if anyNan m1 then mapFMat nanRep m1 else m1) = mapFMat nanRep m1 := by
  cases h : anyNan m1 with
  | true => simp
  | false => simp [mapFMat_id_of_no_nan h]

lemma step_inf {α : Type} [LinearOrderedField α] (m2 : FMat α) :
    (if anyInf m2 then mapFMat infRep m2 else m2) = mapFMat infRep m2 := by
  cases h : anyInf m2 with
  | true => simp
  | false => simp [mapFMat_id_of_no_inf h]

/-- The two conditional fixup passes of `z_transform_conn_matrix` are
equivalent to one unconditional elementwise pass. -/
lemma z_transform_normal_form {α : Type} [LinearOrderedField α]
    (g : α → α) (m : FMat α) :
    z_transform_conn_matrix g m
      = mapFMat (fun v => infRep (nanRep (arctanhF g v))) m := by
  simp only [z_transform_conn_matrix]
  rw [step_nan, step_inf, mapFMat_comp, mapFMat_comp]

/-- The NaN pass followed by the Inf pass leaves neither NaN nor Inf. -/
lemma sanitize_clean {α : Type} [LinearOrderedField α] (w : FVal α) :
    (infRep (nanRep w)).isNan = false ∧ (infRep (nanRep w)).isInf = false := by
  cases w <;> simp [infRep, nanRep, FVal.isNan, FVal.isInf]

lemma getD_set_self {β : Type} (L : List β) (i : ℕ) (a d : β)
    (h : i < L.length) : (L.set i a).getD i d = a := by
  rw [List.getD_eq_getElem?_getD, List.getElem?_set_self h, Option.getD_some]

lemma getD_set_ne {β : Type} (L : List β) {i j : ℕ} (a d : β)
    (h : i ≠ j) : (L.set i a).getD j d = L.getD j d := by
  rw [List.getD_eq_getElem?_getD, List.getElem?_set_ne h,
    ← List.getD_eq_getElem?_getD]

lemma getD_append_left {β : Type} (L L2 : List β) (r : ℕ) (d : β)
    (h : r < L.length) : (L ++ L2).getD r d = L.getD r d := by
  rw [List.getD_eq_getElem?_getD, List.getElem?_append_left h,
    ← List.getD_eq_getElem?_getD]

lemma getD_concat_length {β : Type} (L : List β) (a d : β) :
    (L ++ [a]).getD L.length d = a := by
  rw [List.getD_eq_getElem?_getD, List.getElem?_concat_length, Option.getD_some]

/-! ## Claim theorems -/

/-- C1: for every correlation matrix whose entries are all finite
(including entries exactly `±1`), the matrix returned by
`z_transform_conn_matrix` contains no NaN entry and no infinite
entry. -/
theorem z_transform_no_nan_no_inf {α : Type} [LinearOrderedField α]
    (g : α → α) (m : FMat α)
    (hfin : ∀ row ∈ m, ∀ v ∈ row, v.isFinite = true) :
    ∀ row ∈ z_transform_conn_matrix g m, ∀ v ∈ row,
      v.isNan = false ∧ v.isInf = false := by
  rw [z_transform_normal_form]
  intro row hrow v hv
  simp only [mapFMat] at hrow
  obtain ⟨r0, hr0, rfl⟩ := List.mem_map.mp hrow
  obtain ⟨v0, hv0, rfl⟩ := List.mem_map.mp hv
  exact sanitize_clean (arctanhF g v0)

theorem z_transform_no_nan_no_inf_witness :
    (∀ row ∈ c1mat, ∀ v ∈ row, v.isFinite = true)
    ∧ (∀ row ∈ z_transform_conn_matrix (fun x => x) c1mat, ∀ v ∈ row,
        v.isNan = false ∧ v.isInf = false) :=
  ⟨by decide, z_transform_no_nan_no_inf (fun x => x) c1mat (by decide)⟩

/-- C2: `z_transform_conn_matrix` equals the elementwise function that
applies `arctanh` to every entry, then replaces NaN results by `1e-10`
and infinite results (of either sign) by `1`. -/
theorem z_transform_eq_spec {α : Type} [LinearOrderedField α]
    (g : α → α) (m : FMat α) :
    z_transform_conn_matrix g m = z_transform_spec g m := by
  rw [z_transform_normal_form]; rfl

/-- C9: `z_transform_conn_matrix` never mutates its argument: on the
heap model, the caller's array still holds its original values after
the call, the returned reference is a fresh one, and the fresh array
holds the sanitized result. -/
theorem z_transform_frame {α : Type} [LinearOrderedField α]
    (g : α → α) (heap : Heap α) (r : ℕ) (h : r < heap.length) :
    (z_transform_heap g heap r).2.getD r [] = heap.getD r []
    ∧ (z_transform_heap g heap r).1 ≠ r
    ∧ (z_transform_heap g heap r).2.getD (z_transform_heap g heap r).1 []
        = z_transform_conn_matrix g (heap.getD r []) := by
  have hne : heap.length ≠ r := Nat.ne_of_gt h
  simp only [z_transform_heap]
  set m1 := mapFMat (arctanhF g) (heap.getD r []) with hm1
  set L := heap ++ [m1] with hldef
  have hLr1 : L.getD heap.length [] = m1 := getD_concat_length heap m1 []
  have hLr : L.getD r [] = heap.getD r [] := getD_append_left heap [m1] r [] h
  have hLlen : heap.length < L.length := by
    rw [hldef, List.length_append, List.length_singleton]
    exact Nat.lt_succ_self _
  rw [hLr1]
  set L2 := if anyNan m1 then L.set heap.length (mapFMat nanRep m1) else L
    with hl2def
  have hL2r1 : L2.getD heap.length []
      = (if anyNan m1 then mapFMat nanRep m1 else m1) := by
    rw [hl2def]
    cases anyNan m1
    · simpa using hLr1
    · simp only [if_pos]
      exact getD_set_self L heap.length (mapFMat nanRep m1) [] hLlen
  have hL2r : L2.getD r [] = heap.getD r [] := by
    rw [hl2def]
    cases anyNan m1
    · simpa using hLr
    · simp only [if_pos]
      rw [getD_set_ne L (mapFMat nanRep m1) [] hne]
      exact hLr
  have hL2len : heap.length < L2.length := by
    rw [hl2def]
    cases anyNan m1
    · simpa using hLlen
    · simp only [if_pos, List.length_set]
      exact hLlen
  rw [hL2r1]
  refine ⟨?_, Nat.ne_of_gt h, ?_⟩
  · cases hinf : anyInf (if anyNan m1 then mapFMat nanRep m1 else m1) with
    | false =>
        simpa using hL2r
    | true =>
        simp only [if_pos]
        rw [getD_set_ne L2
          (mapFMat infRep (if anyNan m1 then mapFMat nanRep m1 else m1)) [] hne]
        exact hL2r
  · cases hinf : anyInf (if anyNan m1 then mapFMat nanRep m1 else m1) with
    | false =>
        simp only [Bool.false_eq_true, if_false]
        rw [hL2r1]
        simp only [z_transform_conn_matrix]
        rw [← hm1, hinf]
        simp
    | true =>
        simp only [if_pos]
        rw [getD_set_self L2 heap.length
          (mapFMat infRep (if anyNan m1 then mapFMat nanRep m1 else m1)) [] hL2len]
        simp only [z_transform_conn_matrix]
        rw [← hm1, hinf]
        simp

theorem z_transform_frame_witness :
    (0 < c9heap.length)
    ∧ ((z_transform_heap (fun x => x) c9heap 0).2.getD 0 [] = c9heap.getD 0 []
      ∧ (z_transform_heap (fun x => x) c9heap 0).1 ≠ 0
      ∧ (z_transform_heap (fun x => x) c9heap 0).2.getD
          (z_transform_heap (fun x => x) c9heap 0).1 []
          = z_transform_conn_matrix (fun x => x) (c9heap.getD 0 [])) :=
  ⟨by decide, z_transform_frame (fun x => x) c9heap 0 (by decide)⟩

/-- C4: `get_conn_matrix` with `concat_ts=True` returns the correlation
matrix of the row-stacked sessions, z-transformed exactly when
`z_transformed=True`. -/
theorem conn_concat_eq_spec {p : ℕ} (g : ℝ → ℝ) (z_transformed : Bool)
    (sessions : List (List (Fin p → ℝ))) :
    get_conn_matrix_concat g z_transformed sessions
      = conn_matrix_concat_spec g z_transformed sessions := by
  simp only [get_conn_matrix_concat, conn_matrix_concat_spec]

lemma covM_symm {p n : ℕ} (x : Fin p → Fin n → ℝ) (i j : Fin p) :
    covM x i j = covM x j i := by
  unfold covM
  congr 1
  exact Finset.sum_congr rfl (fun t _ => mul_comm _ _)

lemma corrcoef_symm {p n : ℕ} (x : Fin p → Fin n → ℝ) (i j : Fin p) :
    corrcoef x i j = corrcoef x j i := by
  unfold corrcoef
  rw [covM_symm x i j, mul_comm]

lemma covM_self_pos {p n : ℕ} (x : Fin p → Fin n → ℝ) (i : Fin p)
    (hc : ∃ t1 t2 : Fin n, x i t1 ≠ x i t2) : 0 < covM x i i := by
  obtain ⟨t1, t2, hne⟩ := hc
  have htne : t1 ≠ t2 := fun hh => hne (by rw [hh])
  have hn2 : 2 ≤ n := by
    by_contra hlt
    push_neg at hlt
    interval_cases n
    · exact t1.elim0
    · have h1 := t1.isLt
      have h2 := t2.isLt
      exact htne (Fin.ext (by omega))
  have hd : (0 : ℝ) < (n : ℝ) - 1 := by
    have : (2 : ℝ) ≤ (n : ℝ) := by exact_mod_cast hn2
    linarith
  unfold covM
  set m := rmean n (x i) with hm
  have hS0 : 0 ≤ ∑ t, (x i t - m) * (x i t - m) :=
    Finset.sum_nonneg (fun t _ => mul_self_nonneg _)
  have hSne : (∑ t, (x i t - m) * (x i t - m)) ≠ 0 := by
    intro h0
    have hall := (Finset.sum_eq_zero_iff_of_nonneg
      (fun t _ => mul_self_nonneg (x i t - m))).mp h0
    have h1 : x i t1 = m := by
      have hz := mul_self_eq_zero.mp (hall t1 (Finset.mem_univ t1))
      linarith
    have h2 : x i t2 = m := by
      have hz := mul_self_eq_zero.mp (hall t2 (Finset.mem_univ t2))
      linarith
    exact hne (h1.trans h2.symm)
  exact div_pos (lt_of_le_of_ne hS0 (Ne.symm hSne)) hd

lemma corrcoef_diag_one {p n : ℕ} (x : Fin p → Fin n → ℝ) (i : Fin p)
    (hc : ∃ t1 t2 : Fin n, x i t1 ≠ x i t2) : corrcoef x i i = 1 := by
  have hpos := covM_self_pos x i hc
  unfold corrcoef
  rw [Real.mul_self_sqrt hpos.le, div_self hpos.ne']
  unfold clip
  norm_num

/-- C3: for a session time series whose per-parcel series are
non-constant, the per-session correlation matrix `np.corrcoef(ts.T)`
computed by `get_conn_matrix` before any z-transform is a square
parcel-by-parcel matrix (by the type of `corrcoefL`) that is symmetric
with unit diagonal. -/
theorem conn_matrix_symm_diag {p : ℕ} (rows : List (Fin p → ℝ))
    (h : ∀ i : Fin p, ∃ r1 ∈ rows, ∃ r2 ∈ rows, r1 i ≠ r2 i) :
    (∀ i j, corrcoefL p rows i j = corrcoefL p rows j i)
    ∧ (∀ i, corrcoefL p rows i i = 1) := by
  constructor
  · intro i j
    unfold corrcoefL
    exact corrcoef_symm _ i j
  · intro i
    unfold corrcoefL
    apply corrcoef_diag_one
    obtain ⟨r1, hr1, r2, hr2, hne⟩ := h i
    obtain ⟨t1, ht1⟩ := List.mem_iff_get.mp hr1
    obtain ⟨t2, ht2⟩ := List.mem_iff_get.mp hr2
    exact ⟨t1, t2, by rw [ht1, ht2]; exact hne⟩

theorem conn_matrix_symm_diag_witness :
    (∀ i : Fin 1, ∃ r1 ∈ c3rows, ∃ r2 ∈ c3rows, r1 i ≠ r2 i)
    ∧ ((∀ i j, corrcoefL 1 c3rows i j = corrcoefL 1 c3rows j i)
      ∧ (∀ i, corrcoefL 1 c3rows i i = 1)) := by
  have hw : ∀ i : Fin 1, ∃ r1 ∈ c3rows, ∃ r2 ∈ c3rows, r1 i ≠ r2 i := by
    intro i
    refine ⟨fun _ => 0, by simp [c3rows], fun _ => 1, by simp [c3rows], ?_⟩
    norm_num
  exact ⟨hw, conn_matrix_symm_diag c3rows hw⟩

/-- C7: `clean_signal` discards exactly the first 10 volumes after
filtering: each cleaned session series is 10 samples shorter than the
filtered series, and sample `i` of the result is sample `i + 10` of the
filtered series. -/
theorem clean_discards_first_ten {β : Type}
    (cleanF : List β → List β) (parc_ts : List β)
    (h : 10 ≤ (cleanF parc_ts).length) :
    (cleanSession cleanF parc_ts).length = (cleanF parc_ts).length - 10
    ∧ ∀ i : ℕ, (cleanSession cleanF parc_ts)[i]? = (cleanF parc_ts)[i + 10]? := by
  constructor
  · simpa [cleanSession] using List.length_drop 10 (cleanF parc_ts)
  · intro i
    show ((cleanF parc_ts).drop 10)[i]? = (cleanF parc_ts)[i + 10]?
    rw [List.getElem?_drop, Nat.add_comm]

theorem clean_discards_first_ten_witness :
    10 ≤ (id (List.range 11) : List ℕ).length
    ∧ ((cleanSession (id : List ℕ → List ℕ) (List.range 11)).length
        = (id (List.range 11) : List ℕ).length - 10
      ∧ ∀ i : ℕ, (cleanSession (id : List ℕ → List ℕ) (List.range 11))[i]?
          = (id (List.range 11) : List ℕ)[i + 10]?) :=
  ⟨by decide, clean_discards_first_ten id (List.range 11) (by decide)⟩

lemma length_flatMap_one {β γ : Type} (l : List β) (f : β → List γ)
    (h : ∀ s ∈ l, (f s).length = 1) : (l.flatMap f).length = l.length := by
  induction l with
  | nil => rfl
  | cons a t ih =>
      rw [List.flatMap_cons, List.length_append, h a (List.mem_cons_self a t),
        ih (fun s hs => h s (List.mem_cons_of_mem a hs))]
      simp [Nat.add_comm]

/-- C6 (counterexample): the claim says each per-session slice of
`clean_signal`'s result has one entry per parcel; for a session with
12 volumes over 3 parcels the slice has 2 entries (volumes after the
warm-up discard), not 3. -/
theorem clean_signal_shape_counterexample :
    (clean_signal unitConfEnv tsMatchW confMatchW masker12x3 false id
        oneRunSubject).map List.length = [2]
    ∧ (2 : ℕ) ≠ 3 := by
  constructor
  · decide
  · decide

/-- C6 (amended): the cleaned array has shape
(sessions, volumes, parcels): slice `i` has one entry per retained
time volume (10 fewer than the filtered series), and each entry is a
`Fin p → ℝ` row indexed by parcels (the third axis). -/
theorem clean_signal_shape {DF : Type} {p : ℕ} (env : ConfEnv DF)
    (tsMatch confMatch : String → Bool)
    (masker : String → DF → List (Fin p → ℝ)) (gsr : Bool)
    (cleanF : List (Fin p → ℝ) → List (Fin p → ℝ)) (fs : SubjectDir) :
    (clean_signal env tsMatch confMatch masker gsr cleanF fs).map List.length
      = (parcellate env tsMatch confMatch masker gsr fs).map
          (fun parc_ts => (cleanF parc_ts).length - 10) := by
  simp only [clean_signal, cleanSession, List.map_map]
  simp [Function.comp, List.length_drop]

/-- C5 (counterexample): a subject with one session directory whose
`func` directory holds two matching runs yields a stack of 2 matrices,
where the claim predicts the number of session directories (1). -/
theorem conn_session_count_counterexample :
    (get_conn_matrix_sessions (fun x => x) true
        (clean_signal unitConfEnv tsMatchW confMatchW maskerEmpty false id
          twoRunSubject)).length
      ≠ (if twoRunSubject.sessions.length ≠ 0 then
          twoRunSubject.sessions.length else 1) := by
  decide

/-- C5 (amended): when every discovered session directory exists and
contributes exactly one matching time-series file and one matching
confounds table (resp. the subject-level `func` directory when there
are no sessions), the number of per-session matrices returned with
`concat_ts=False` equals the number of session directories, or 1 if
there are none. -/
theorem conn_session_count {DF : Type} {p : ℕ} (env : ConfEnv DF)
    (tsMatch confMatch : String → Bool)
    (masker : String → DF → List (Fin p → ℝ)) (gsr : Bool)
    (cleanF : List (Fin p → ℝ) → List (Fin p → ℝ)) (fs : SubjectDir)
    (g : ℝ → ℝ) (zt : Bool)
    (hses : ∀ s ∈ fs.sessions, s.funcExists = true
      ∧ (s.funcFiles.filter tsMatch).length = 1
      ∧ (s.funcFiles.filter confMatch).length = 1)
    (hnone : fs.sessions = [] →
      (fs.funcFiles.filter tsMatch).length = 1
      ∧ (fs.funcFiles.filter confMatch).length = 1) :
    (get_conn_matrix_sessions g zt
        (clean_signal env tsMatch confMatch masker gsr cleanF fs)).length
      = if fs.sessions.length ≠ 0 then fs.sessions.length else 1 := by
  have hgs : (get_sessions fs).length = fs.sessions.length := by
    simp [get_sessions]
  simp only [get_conn_matrix_sessions, clean_signal, parcellate,
    List.length_map, List.length_zip]
  by_cases hs : fs.sessions = []
  · have h1 := hnone hs
    simp [get_ts_paths, get_confounds, get_sessions, hs, h1.1, h1.2]
  · have hlen0 : fs.sessions.length ≠ 0 := by
      simpa [List.length_eq_zero] using hs
    have hcond : (get_sessions fs).length ≠ 0 := by rw [hgs]; exact hlen0
    have hts : (get_ts_paths tsMatch fs).length = fs.sessions.length := by
      rw [get_ts_paths, if_pos hcond]
      apply length_flatMap_one
      intro s hsm
      obtain ⟨hex, hfil, _⟩ := hses s hsm
      simp [hex, List.length_map, hfil]
    have hcf : (get_confounds env confMatch fs true none).length
        = fs.sessions.length := by
      rw [get_confounds]
      simp only [if_pos hcond, if_true, List.length_map]
      apply length_flatMap_one
      intro s hsm
      obtain ⟨hex, _, hfil⟩ := hses s hsm
      simp [hex, List.length_map, hfil]
    rw [hts, hcf, min_self, if_pos hlen0]

/-- C8: a `FileNotFoundError` from listing the missing `derivatives`
directory (matching `filename` and `strerror`) is re-raised with the
specific message; any other error from the listing propagates
unmodified. -/
theorem init_error_translation (os : OSModel) (bids : String) (fuel : ℕ)
    (e : PyError)
    (herr : os.listdir (bids ++ "/derivatives") = .error e) :
    ((∃ msg, e = .fileNotFoundError msg (bids ++ "/derivatives")
        "No such file or directory") →
      fmriPreppedInitDataPath os (fuel + 1) bids
        = .error (.fileNotFoundError derivativesMissingMsg "" ""))
    ∧ ((∀ msg, e ≠ .fileNotFoundError msg (bids ++ "/derivatives")
        "No such file or directory") →
      fmriPreppedInitDataPath os (fuel + 1) bids = .error e) := by
  constructor
  · rintro ⟨msg, rfl⟩
    simp [fmriPreppedInitDataPath, findSubDirs, listdirChecked, herr]
  · intro hne
    cases e with
    | fileNotFoundError m fn strerr =>
        have hcond : ¬(fn = bids ++ "/derivatives"
            ∧ strerr = "No such file or directory") := by
          rintro ⟨rfl, rfl⟩
          exact hne m rfl
        simp [fmriPreppedInitDataPath, findSubDirs, listdirChecked, herr, hcond]
    | otherError m =>
        simp [fmriPreppedInitDataPath, findSubDirs, listdirChecked, herr]

theorem init_error_translation_witness :
    (c8os.listdir ("/data" ++ "/derivatives") = .error c8err)
    ∧ (((∃ msg, c8err = .fileNotFoundError msg ("/data" ++ "/derivatives")
          "No such file or directory") →
        fmriPreppedInitDataPath c8os 1 "/data"
          = .error (.fileNotFoundError derivativesMissingMsg "" ""))
      ∧ ((∀ msg, c8err ≠ .fileNotFoundError msg ("/data" ++ "/derivatives")
          "No such file or directory") →
        fmriPreppedInitDataPath c8os 1 "/data" = .error c8err)) :=
  ⟨rfl, init_error_translation c8os "/data" 0 c8err rfl⟩

/-- C10: for a subject with at least one session directory,
`get_confounds` with `no_nans=True` does not depend on the
`pick_confounds` argument: imputation in that branch always uses the
default confounds list. -/
theorem confounds_pick_independent {DF : Type} (env : ConfEnv DF)
    (confMatch : String → Bool) (fs : SubjectDir)
    (pick1 pick2 : Option String)
    (hses : fs.sessions ≠ []) :
    get_confounds env confMatch fs true pick1
      = get_confounds env confMatch fs true pick2 := by
  have hlen : (get_sessions fs).length ≠ 0 := by
    simpa [get_sessions, List.length_eq_zero] using hses
  simp [get_confounds, hlen]

theorem confounds_pick_independent_witness :
    (oneRunSubject.sessions ≠ [])
    ∧ get_confounds natConfEnv confMatchW oneRunSubject true none
        = get_confounds natConfEnv confMatchW oneRunSubject true
            (some "other.txt") :=
  ⟨by decide, confounds_pick_independent natConfEnv confMatchW oneRunSubject
    none (some "other.txt") (by decide)⟩

theorem conn_session_count_witness :
    ((∀ s ∈ oneRunSubject.sessions, s.funcExists = true
      ∧ (s.funcFiles.filter tsMatchW).length = 1
      ∧ (s.funcFiles.filter confMatchW).length = 1)
    ∧ (oneRunSubject.sessions = [] →
      (oneRunSubject.funcFiles.filter tsMatchW).length = 1
      ∧ (oneRunSubject.funcFiles.filter confMatchW).length = 1))
    ∧ (get_conn_matrix_sessions (fun x => x) true
        (clean_signal unitConfEnv tsMatchW confMatchW maskerEmpty false id
          oneRunSubject)).length
      = if oneRunSubject.sessions.length ≠ 0 then
          oneRunSubject.sessions.length else 1 :=
  ⟨⟨by decide, by decide⟩,
    conn_session_count unitConfEnv tsMatchW confMatchW maskerEmpty false id
      oneRunSubject (fun x => x) true (by decide) (by decide)⟩
